/-
Verification of the distributed-transaction-and-resilience core of the
demo-microservices repository (python service), as a shallow embedding in
Lean 4.  Each section embeds one component of
`src/demo-python-service/patterns/`:

  * `CB`      — `resilience/circuit_breaker.py`, class `PythonCircuitBreaker`
  * `TwoPC`   — `transaction/two_phase_commit.py`, class `TransactionCoordinator`
  * `ESaga`   — `messaging/event_streaming.py`, class `SagaOrchestrator`
  * `Inbox`   — `messaging/inbox_pattern.py`, class `InboxPattern`
  * `Outbox`  — `transaction/outbox.py`, classes `OutboxRepository`,
                `EventPublisher`, `OutboxService`

Wall-clock time is modelled as a natural number; timestamps recorded purely
for observability (`created_at`, `updated_at`, `processed_at`) are omitted,
as is the derived `failure_rate` statistic (`failure_count / total_requests`).
External callables (step actions, compensations, event handlers, resource
managers) are modelled as Lean functions returning `Except String _`, where
`Except.error` models a raised Python exception.
-/
import Mathlib

set_option linter.unusedVariables false

/-- Python dict assignment `m[k] = v` on an association list: replaces the
value at the first occurrence of `k` (keeping its position, as a Python dict
does), appends `(k, v)` when `k` is absent. -/
def assocSet {α : Type} : List (String × α) → String → α → List (String × α)
  | [], k, v => [(k, v)]
  | (k', v') :: rest, k, v =>
      if k' = k then (k, v) :: rest else (k', v') :: assocSet rest k v

theorem assocSet_lookup_self {α : Type} (m : List (String × α)) (k : String) (v : α) :
    (assocSet m k v).lookup k = some v := by
  induction m with
  | nil => simp [assocSet, List.lookup]
  | cons kv rest ih =>
    by_cases h : kv.1 = k
    · simp [assocSet, h, List.lookup]
    · have hk : (k == kv.1) = false := by
        simp only [beq_eq_false_iff_ne]
        exact fun e => h e.symm
      simp [assocSet, h, List.lookup, hk, ih]

/-- Decidable equality for `Except`, used to evaluate modelled call
outcomes on concrete inputs. -/
instance exceptDecEq {e a : Type} [DecidableEq e] [DecidableEq a] :
    DecidableEq (Except e a) := fun x y =>
  match x, y with
  | .ok v, .ok w =>
      if h : v = w then isTrue (by rw [h])
      else isFalse (fun hc => h (by injection hc))
  | .ok v, .error f => isFalse (fun hc => Except.noConfusion hc)
  | .error f, .ok v => isFalse (fun hc => Except.noConfusion hc)
  | .error f, .error g =>
      if h : f = g then isTrue (by rw [h])
      else isFalse (fun hc => h (by injection hc))

namespace CB

/-- The `CircuitBreakerState` enum of `circuit_breaker.py`. -/
inductive CircuitBreakerState
  | CLOSED
  | OPEN
  | HALF_OPEN
deriving DecidableEq, Repr

/-- Constructor arguments of `PythonCircuitBreaker.__init__`
(`failure_threshold`, `recovery_timeout`); the `expected_exception` class is
modelled by the outcome classification in `CBOutcome`. -/
structure CBConfig where
  failureThreshold : Nat
  recoveryTimeout : Nat
deriving DecidableEq, Repr

/-- The mutable `CircuitBreakerStats` of one breaker (minus the derived
`failure_rate`). -/
structure CBState where
  state : CircuitBreakerState
  failureCount : Nat
  successCount : Nat
  totalRequests : Nat
  lastFailureTime : Option Nat
deriving DecidableEq, Repr

/-- Fresh `CircuitBreakerStats()`: CLOSED, all counters zero,
`last_failure_time = None`. -/
def cbInit : CBState := ⟨.CLOSED, 0, 0, 0, none⟩

/-- Behaviour of the wrapped operation on one call: it returns normally,
raises the configured `expected_exception` (a classified failure), or raises
some other exception (not classified). -/
inductive CBOutcome
  | success
  | failure
  | unexpected
deriving DecidableEq, Repr

/-- Observable outcome of one `wrapper(...)` call. -/
inductive CBResult
  | returned      -- the operation's result is returned
  | circuitOpen   -- `raise Exception("Circuit breaker is OPEN")`
  | reraised      -- classified failure recorded, then re-raised
  | propagated    -- unclassified exception propagates, no bookkeeping
  | typeErr       -- OPEN with `last_failure_time = None` (arithmetic on None)
deriving DecidableEq, Repr

/-- One call's result, whether the wrapped operation was invoked, and the
breaker state afterwards. -/
structure CBCallR where
  result : CBResult
  invoked : Bool
  state : CBState
deriving DecidableEq, Repr

/-- Model of `PythonCircuitBreaker._on_success`. -/
def onSuccess (s : CBState) : CBState :=
  let s := { s with successCount := s.successCount + 1,
                    totalRequests := s.totalRequests + 1 }
  if s.state = .HALF_OPEN then
    { s with state := .CLOSED, failureCount := 0 }
  else s

/-- Model of `PythonCircuitBreaker._on_failure` at wall-clock time `t`. -/
def onFailure (cfg : CBConfig) (s : CBState) (t : Nat) : CBState :=
  let s := { s with failureCount := s.failureCount + 1,
                    totalRequests := s.totalRequests + 1,
                    lastFailureTime := some t }
  if cfg.failureThreshold ≤ s.failureCount then
    { s with state := .OPEN }
  else s

/-- Result of the OPEN-state admission check at the top of `wrapper`. -/
inductive AdmitR
  | run (s : CBState)  -- proceed to invoke the operation from state `s`
  | reject             -- `raise Exception("Circuit breaker is OPEN")`
  | err                -- `time.time() - None`: TypeError
deriving DecidableEq, Repr

/-- The admission check at the top of `wrapper`: an OPEN breaker admits the
call (moving to HALF_OPEN) only when strictly more than `recovery_timeout`
has elapsed since `last_failure_time`; otherwise it rejects. -/
def cbAdmit (cfg : CBConfig) (s : CBState) (t : Nat) : AdmitR :=
  if s.state = .OPEN then
    match s.lastFailureTime with
    | none => .err
    | some lft =>
        if cfg.recoveryTimeout < t - lft then
          .run { s with state := .HALF_OPEN }
        else .reject
  else .run s

/-- The `try`/`except` body of `wrapper` once the call is admitted. -/
def runOp (cfg : CBConfig) (s : CBState) (t : Nat) : CBOutcome → CBCallR
  | .success => ⟨.returned, true, onSuccess s⟩
  | .failure => ⟨.reraised, true, onFailure cfg s t⟩
  | .unexpected => ⟨.propagated, true, s⟩

/-- One call through `wrapper` at time `t`, with the wrapped operation
behaving as `op`. -/
def cbCall (cfg : CBConfig) (s : CBState) (t : Nat) (op : CBOutcome) : CBCallR :=
  match cbAdmit cfg s t with
  | .run s' => runOp cfg s' t op
  | .reject => ⟨.circuitOpen, false, s⟩
  | .err => ⟨.typeErr, false, s⟩

/-- A call whose wrapped operation raises the classified exception. -/
def failNext (cfg : CBConfig) (s : CBState) (t : Nat) : CBCallR :=
  cbCall cfg s t .failure

/-- Predicate `failChainOk cfg s ts` holds when, starting from `s`, the calls at times
`ts` (each with a classified-failure operation) are all admitted: a run of
consecutive classified failures of the guarded call. -/
def failChainOk (cfg : CBConfig) : CBState → List Nat → Bool
  | _, [] => true
  | s, t :: ts => (failNext cfg s t).invoked && failChainOk cfg (failNext cfg s t).state ts

/-- Breaker state after the run of failing calls at times `ts`. -/
def failChainEnd (cfg : CBConfig) : CBState → List Nat → CBState
  | s, [] => s
  | s, t :: ts => failChainEnd cfg (failNext cfg s t).state ts

theorem onFailure_spec (cfg : CBConfig) (s : CBState) (t : Nat) :
    (onFailure cfg s t).failureCount = s.failureCount + 1 ∧
    (onFailure cfg s t).lastFailureTime = some t ∧
    (cfg.failureThreshold ≤ s.failureCount + 1 →
      (onFailure cfg s t).state = .OPEN) := by
  simp only [onFailure]
  split
  · exact ⟨rfl, rfl, fun _ => rfl⟩
  · rename_i hn
    exact ⟨rfl, rfl, fun hth => absurd hth hn⟩

theorem cbAdmit_run_count (cfg : CBConfig) (s : CBState) (t : Nat) (s' : CBState)
    (h : cbAdmit cfg s t = .run s') : s'.failureCount = s.failureCount := by
  unfold cbAdmit at h
  split at h
  · split at h
    · cases h
    · split at h
      · injection h with h'
        rw [← h']
      · cases h
  · injection h with h'
    rw [← h']

theorem failNext_invoked (cfg : CBConfig) (s : CBState) (t : Nat)
    (h : (failNext cfg s t).invoked = true) :
    (failNext cfg s t).state.failureCount = s.failureCount + 1 ∧
    (failNext cfg s t).state.lastFailureTime = some t ∧
    (cfg.failureThreshold ≤ s.failureCount + 1 →
      (failNext cfg s t).state.state = .OPEN) := by
  unfold failNext cbCall at *
  cases ha : cbAdmit cfg s t with
  | run s' =>
    have hc := cbAdmit_run_count cfg s t s' ha
    simp only [runOp]
    have hs := onFailure_spec cfg s' t
    rw [hc] at hs
    exact hs
  | reject => rw [ha] at h; simp at h
  | err => rw [ha] at h; simp at h

theorem failChain_open (cfg : CBConfig) :
    ∀ (ts : List Nat) (s : CBState), failChainOk cfg s ts = true → ts ≠ [] →
    cfg.failureThreshold ≤ s.failureCount + ts.length →
    (failChainEnd cfg s ts).state = .OPEN ∧
    ((failChainEnd cfg s ts).lastFailureTime).isSome = true := by
  intro ts
  induction ts with
  | nil => intro s _ hne _; exact absurd rfl hne
  | cons t ts ih =>
    intro s hok _ hth
    simp only [failChainOk, Bool.and_eq_true] at hok
    obtain ⟨hinv, hrest⟩ := hok
    obtain ⟨hcnt, hlft, hopen⟩ := failNext_invoked cfg s t hinv
    cases ts with
    | nil =>
      simp only [failChainEnd]
      constructor
      · exact hopen (by simpa using hth)
      · simp [hlft]
    | cons t' ts' =>
      simp only [failChainEnd]
      apply ih _ hrest (by simp)
      rw [hcnt]
      simp only [List.length_cons] at hth ⊢
      omega

/-- A breaker in OPEN state rejects (without invoking the operation) any call
made at time `t'` with `t' - lft ≤ recovery_timeout`. -/
theorem cbCall_open_rejects (cfg : CBConfig) (s : CBState) (t' : Nat)
    (lft : Nat) (hs : s.state = .OPEN) (hl : s.lastFailureTime = some lft)
    (ht : ¬ cfg.recoveryTimeout < t' - lft) (op : CBOutcome) :
    cbCall cfg s t' op = ⟨.circuitOpen, false, s⟩ := by
  unfold cbCall cbAdmit
  simp [hs, hl, ht]

/-- Reachable breaker states: the fresh breaker, closed under calls at
arbitrary times with arbitrary operation behaviour. -/
inductive CBReach (cfg : CBConfig) : CBState → Prop
  | base : CBReach cfg cbInit
  | step (s : CBState) (t : Nat) (op : CBOutcome) :
      CBReach cfg s → CBReach cfg (cbCall cfg s t op).state

/-- Breaker invariant: an OPEN or HALF_OPEN breaker has accumulated at least
`failure_threshold` failures (the counter is reset only on the
HALF_OPEN → CLOSED transition). -/
def CBInv (cfg : CBConfig) (s : CBState) : Prop :=
  s.state = .OPEN ∨ s.state = .HALF_OPEN → cfg.failureThreshold ≤ s.failureCount

theorem onSuccess_inv (cfg : CBConfig) (s : CBState) (h : CBInv cfg s) :
    CBInv cfg (onSuccess s) := by
  unfold CBInv onSuccess at *
  dsimp only
  split
  · intro hc
    simp at hc
  · intro hc
    exact h hc

theorem onFailure_inv (cfg : CBConfig) (s : CBState) (t : Nat) (h : CBInv cfg s) :
    CBInv cfg (onFailure cfg s t) := by
  unfold CBInv onFailure at *
  dsimp only
  split
  · rename_i hth
    intro _
    exact hth
  · intro hc
    exact Nat.le_succ_of_le (h hc)

theorem cbAdmit_run_inv (cfg : CBConfig) (s : CBState) (t : Nat) (s' : CBState)
    (h : cbAdmit cfg s t = .run s') (hi : CBInv cfg s) : CBInv cfg s' := by
  unfold cbAdmit at h
  split at h
  · rename_i hop
    split at h
    · cases h
    · split at h
      · injection h with h'
        rw [← h']
        intro _
        exact hi (Or.inl hop)
      · cases h
  · injection h with h'
    rw [← h']
    exact hi

theorem cbInv_call (cfg : CBConfig) (s : CBState) (t : Nat) (op : CBOutcome)
    (h : CBInv cfg s) : CBInv cfg (cbCall cfg s t op).state := by
  unfold cbCall
  cases ha : cbAdmit cfg s t with
  | reject => exact h
  | err => exact h
  | run s' =>
    have hi' := cbAdmit_run_inv cfg s t s' ha h
    cases op with
    | success => exact onSuccess_inv cfg s' hi'
    | failure => exact onFailure_inv cfg s' t hi'
    | unexpected => exact hi'

theorem cbReach_inv (cfg : CBConfig) (s : CBState) (h : CBReach cfg s) :
    CBInv cfg s := by
  induction h with
  | base =>
    intro hc
    simp [cbInit] at hc
  | step s t op _ ih => exact cbInv_call cfg s t op ih

end CB

open CB in
/-- Claim C2: after any run of N ≥ failure-threshold consecutive classified
failures of the guarded call (each call admitted and its operation raising
the expected exception), the breaker is OPEN with a recorded last-failure
time, and any call made while strictly less than `recovery_timeout` has
elapsed since that last failure is rejected with the circuit-open exception,
without invoking the wrapped operation and without changing the breaker
state. -/
theorem circuitBreaker_opens_and_rejects (cfg : CBConfig) (s : CBState)
    (ts : List Nat) (hok : failChainOk cfg s ts = true) (hne : ts ≠ [])
    (hN : cfg.failureThreshold ≤ ts.length) :
    (failChainEnd cfg s ts).state = .OPEN ∧
    ((failChainEnd cfg s ts).lastFailureTime).isSome = true ∧
    ∀ lft t' op, (failChainEnd cfg s ts).lastFailureTime = some lft →
      t' - lft < cfg.recoveryTimeout →
      (cbCall cfg (failChainEnd cfg s ts) t' op).result = .circuitOpen ∧
      (cbCall cfg (failChainEnd cfg s ts) t' op).invoked = false ∧
      (cbCall cfg (failChainEnd cfg s ts) t' op).state = failChainEnd cfg s ts := by
  have hmain := failChain_open cfg ts s hok hne
    (le_trans hN (Nat.le_add_left _ _))
  refine ⟨hmain.1, hmain.2, ?_⟩
  intro lft t' op hl ht
  have hrej := cbCall_open_rejects cfg _ t' lft hmain.1 hl (by omega) op
  rw [hrej]
  exact ⟨rfl, rfl, rfl⟩

open CB in
/-- Witness for `circuitBreaker_opens_and_rejects`: threshold 2, recovery
timeout 30, admitted classified failures at times 3 and 5, rejected call at
time 20. -/
theorem circuitBreaker_opens_and_rejects_witness :
    failChainOk ⟨2, 30⟩ cbInit [3, 5] = true ∧
    (cbCall ⟨2, 30⟩ (failChainEnd ⟨2, 30⟩ cbInit [3, 5]) 20 .success).result
      = .circuitOpen := by
  refine ⟨by decide, ?_⟩
  exact ((circuitBreaker_opens_and_rejects ⟨2, 30⟩ cbInit [3, 5] (by decide)
    (by decide) (by decide)).2.2 5 20 .success (by decide) (by decide)).1

open CB in
/-- Claim C6 counterexample: with failure-threshold 1 and recovery-timeout
30, one classified failure at time 0 opens the breaker; the next call at
time 30 — exactly recovery-timeout elapsed since the last failure — is NOT
admitted: the code requires strictly more than `recovery_timeout` elapsed
(`time.time() - last_failure_time > recovery_timeout`), so the call is
rejected with the circuit-open exception and the operation is not invoked,
refuting the claim that a call is admitted once recovery-timeout *or more*
has elapsed. -/
theorem circuitBreaker_recovery_counterexample :
    ((cbCall ⟨1, 30⟩ cbInit 0 .failure).state.state = .OPEN) ∧
    ((cbCall ⟨1, 30⟩ cbInit 0 .failure).state.lastFailureTime = some 0) ∧
    (cbCall ⟨1, 30⟩ ((cbCall ⟨1, 30⟩ cbInit 0 .failure).state) 30
      .success).result = .circuitOpen ∧
    (cbCall ⟨1, 30⟩ ((cbCall ⟨1, 30⟩ cbInit 0 .failure).state) 30
      .success).invoked = false := by
  decide

open CB in
/-- Claim C6 (amended): for a breaker in OPEN state, once *strictly more
than* recovery-timeout has elapsed since the last failure, the next call is
admitted — the breaker moves to HALF_OPEN and the operation is invoked; if
the operation succeeds the breaker transitions to CLOSED with its failure
count reset to 0. -/
theorem circuitBreaker_recovery (cfg : CBConfig) (s : CBState) (t lft : Nat)
    (hs : s.state = .OPEN) (hl : s.lastFailureTime = some lft)
    (ht : cfg.recoveryTimeout < t - lft) :
    cbAdmit cfg s t = .run { s with state := .HALF_OPEN } ∧
    (∀ op, (cbCall cfg s t op).invoked = true) ∧
    (cbCall cfg s t .success).state.state = .CLOSED ∧
    (cbCall cfg s t .success).state.failureCount = 0 := by
  have hadm : cbAdmit cfg s t = .run { s with state := .HALF_OPEN } := by
    unfold cbAdmit
    simp [hs, hl, ht]
  refine ⟨hadm, ?_, ?_, ?_⟩
  · intro op
    unfold cbCall
    rw [hadm]
    cases op <;> rfl
  · unfold cbCall
    rw [hadm]
    simp [runOp, onSuccess]
  · unfold cbCall
    rw [hadm]
    simp [runOp, onSuccess]

open CB in
/-- Witness for `circuitBreaker_recovery`: breaker opened by a failure at
time 0 (threshold 1, timeout 30); a successful call at time 31 closes it and
resets the failure count. -/
theorem circuitBreaker_recovery_witness :
    (cbCall ⟨1, 30⟩ ((cbCall ⟨1, 30⟩ cbInit 0 .failure).state) 31
      .success).state.state = .CLOSED ∧
    (cbCall ⟨1, 30⟩ ((cbCall ⟨1, 30⟩ cbInit 0 .failure).state) 31
      .success).state.failureCount = 0 := by
  have h := circuitBreaker_recovery ⟨1, 30⟩
    ((cbCall ⟨1, 30⟩ cbInit 0 .failure).state) 31 0
    (by decide) (by decide) (by decide)
  exact ⟨h.2.2.1, h.2.2.2⟩

open CB in
/-- Claim C9: in every reachable breaker state in HALF_OPEN, a call whose
operation raises the classified failure is admitted, moves the breaker back
to OPEN and updates `last_failure_time` to the time of that failure, so any
later call made while strictly less than `recovery_timeout` has elapsed
since it is rejected again without invoking the wrapped operation. -/
theorem circuitBreaker_halfOpen_failure_reopens (cfg : CBConfig) (s : CBState)
    (t : Nat) (hr : CBReach cfg s) (hh : s.state = .HALF_OPEN) :
    (cbCall cfg s t .failure).result = .reraised ∧
    (cbCall cfg s t .failure).state.state = .OPEN ∧
    (cbCall cfg s t .failure).state.lastFailureTime = some t ∧
    ∀ t' op, t' - t < cfg.recoveryTimeout →
      (cbCall cfg (cbCall cfg s t .failure).state t' op).result = .circuitOpen ∧
      (cbCall cfg (cbCall cfg s t .failure).state t' op).invoked = false := by
  have hinv := cbReach_inv cfg s hr
  have hth : cfg.failureThreshold ≤ s.failureCount := hinv (Or.inr hh)
  have hadm : cbAdmit cfg s t = .run s := by
    unfold cbAdmit
    rw [hh]
    simp
  have hcall : cbCall cfg s t .failure = runOp cfg s t .failure := by
    unfold cbCall
    rw [hadm]
  rw [hcall]
  simp only [runOp]
  have hof := onFailure_spec cfg s t
  have hopen : (onFailure cfg s t).state = .OPEN :=
    hof.2.2 (Nat.le_succ_of_le hth)
  refine ⟨by trivial, hopen, hof.2.1, ?_⟩
  intro t' op ht
  have hrej := cbCall_open_rejects cfg (onFailure cfg s t) t' t hopen hof.2.1
    (by omega) op
  rw [hrej]
  exact ⟨rfl, rfl⟩

open CB in
/-- Witness for `circuitBreaker_halfOpen_failure_reopens`: threshold 1,
timeout 30; a failure at time 0 opens the breaker, an unclassified exception
at time 31 is admitted and leaves it HALF_OPEN (reachable state), and a
classified failure at time 40 re-opens it. -/
theorem circuitBreaker_halfOpen_failure_reopens_witness :
    ((cbCall ⟨1, 30⟩ ((cbCall ⟨1, 30⟩ ((cbCall ⟨1, 30⟩ cbInit 0
      .failure).state) 31 .unexpected).state) 40 .failure).state).state
      = .OPEN := by
  exact (circuitBreaker_halfOpen_failure_reopens ⟨1, 30⟩ _ 40
    (CBReach.step _ 31 .unexpected (CBReach.step _ 0 .failure CBReach.base))
    (by decide)).2.1

namespace TwoPC

/-- The `ParticipantStatus` enum of `two_phase_commit.py`. -/
inductive ParticipantStatus
  | PREPARING
  | PREPARED
  | COMMITTED
  | ABORTED
  | FAILED
deriving DecidableEq, Repr

/-- The `TransactionStatus` enum of `two_phase_commit.py`. -/
inductive TransactionStatus
  | PREPARING
  | PREPARED
  | COMMITTED
  | ABORTED
deriving DecidableEq, Repr

/-- Behaviour of one registered `ResourceManager` for this transaction and
payload: the outcome of its `prepare`, `commit` and `abort` calls, each
returning a `bool` (`Except.ok`) or raising (`Except.error`). -/
structure RMBehavior where
  prepare : Except String Bool
  commit : Except String Bool
  abort : Except String Bool
deriving DecidableEq, Repr

/-- One `TransactionParticipant` together with its registered resource
manager (the claim quantifies over registered participants, so every
participant here has one); `prepare_data` and `error_message` are recorded
for observability only and are omitted. -/
structure PartState where
  pid : String
  rm : RMBehavior
  status : ParticipantStatus
deriving DecidableEq, Repr

/-- A resource-manager call issued by the coordinator, for tracing which
participants received which calls. -/
inductive RMCall
  | prepare (pid : String)
  | commit (pid : String)
  | abort (pid : String)
deriving DecidableEq, Repr

/-- One iteration of the `prepare_phase` loop body: `prepare` succeeding
marks the participant PREPARED, a `False` return or a raised exception marks
it FAILED; the second component is this participant's contribution to
`all_prepared`. -/
def prepareOne (p : PartState) : PartState × Bool :=
  match p.rm.prepare with
  | .ok true => ({ p with status := .PREPARED }, true)
  | .ok false => ({ p with status := .FAILED }, false)
  | .error _ => ({ p with status := .FAILED }, false)

/-- One iteration of the `commit_phase` loop body: `commit` succeeding marks
the participant COMMITTED, a `False` return or a raised exception marks it
FAILED; the second component is this participant's contribution to
`all_committed`. -/
def commitOne (p : PartState) : PartState × Bool :=
  match p.rm.commit with
  | .ok true => ({ p with status := .COMMITTED }, true)
  | .ok false => ({ p with status := .FAILED }, false)
  | .error _ => ({ p with status := .FAILED }, false)

/-- One iteration of the `abort_transaction` loop body: `abort` is called and
the participant is marked ABORTED regardless of the boolean it returns; if
`abort` raises, the exception is logged and the status is left unchanged. -/
def abortOne (p : PartState) : PartState :=
  match p.rm.abort with
  | .error _ => p
  | .ok _ => { p with status := .ABORTED }

/-- Model of `TransactionCoordinator.prepare_phase`: calls `prepare` on every
participant's resource manager in order (continuing past failures) and
returns the updated participants, the calls issued, and `all_prepared`. -/
def preparePhase : List PartState → List PartState × List RMCall × Bool
  | [] => ([], [], true)
  | p :: rest =>
      ((prepareOne p).1 :: (preparePhase rest).1,
       .prepare p.pid :: (preparePhase rest).2.1,
       (prepareOne p).2 && (preparePhase rest).2.2)

/-- Model of the `commit_phase` participant loop, analogously. -/
def commitPhase : List PartState → List PartState × List RMCall × Bool
  | [] => ([], [], true)
  | p :: rest =>
      ((commitOne p).1 :: (commitPhase rest).1,
       .commit p.pid :: (commitPhase rest).2.1,
       (commitOne p).2 && (commitPhase rest).2.2)

/-- Model of the `abort_transaction` participant loop: `abort` is invoked on
every participant. -/
def abortAll : List PartState → List PartState × List RMCall
  | [] => ([], [])
  | p :: rest =>
      (abortOne p :: (abortAll rest).1, .abort p.pid :: (abortAll rest).2)

/-- Final outcome of `execute_two_phase_commit`: the participants with their
final statuses, the global transaction status, the trace of resource-manager
calls in order, and the returned boolean. -/
structure Exec2PCR where
  parts : List PartState
  txStatus : TransactionStatus
  trace : List RMCall
  result : Bool
deriving DecidableEq, Repr

/-- Model of `TransactionCoordinator.execute_two_phase_commit` over the
registered participants: begin, prepare phase (transaction marked PREPARED on
success, ABORTED otherwise), then either `abort_transaction` and `False`, or
the commit phase followed by COMMITTED/`True` on full success and
`abort_transaction`/`False` otherwise. -/
def executeTwoPhaseCommit (ps : List PartState) : Exec2PCR :=
  let pr := preparePhase ps
  if pr.2.2 then
    let cm := commitPhase pr.1
    if cm.2.2 then ⟨cm.1, .COMMITTED, pr.2.1 ++ cm.2.1, true⟩
    else
      let ab := abortAll cm.1
      ⟨ab.1, .ABORTED, pr.2.1 ++ cm.2.1 ++ ab.2, false⟩
  else
    let ab := abortAll pr.1
    ⟨ab.1, .ABORTED, pr.2.1 ++ ab.2, false⟩

theorem prepareOne_flag (p : PartState) :
    (prepareOne p).2 = true ↔ p.rm.prepare = .ok true := by
  unfold prepareOne
  cases h : p.rm.prepare with
  | ok b => cases b <;> simp
  | error e => simp

theorem prepareOne_ok (p : PartState) (h : p.rm.prepare = .ok true) :
    prepareOne p = ({ p with status := .PREPARED }, true) := by
  unfold prepareOne
  rw [h]

theorem commitOne_ok (p : PartState) (h : p.rm.commit = .ok true) :
    commitOne p = ({ p with status := .COMMITTED }, true) := by
  unfold commitOne
  rw [h]

theorem prepareOne_pid (p : PartState) : (prepareOne p).1.pid = p.pid := by
  unfold prepareOne
  cases h : p.rm.prepare with
  | ok b => cases b <;> rfl
  | error e => rfl

theorem preparePhase_ok_iff (ps : List PartState) :
    (preparePhase ps).2.2 = true ↔ ∀ p ∈ ps, p.rm.prepare = .ok true := by
  induction ps with
  | nil => simp [preparePhase]
  | cons p rest ih =>
    simp only [preparePhase, Bool.and_eq_true, ih, prepareOne_flag,
      List.forall_mem_cons]

theorem preparePhase_all_ok (ps : List PartState)
    (h : ∀ p ∈ ps, p.rm.prepare = .ok true) :
    (preparePhase ps).1 = ps.map (fun p => { p with status := .PREPARED }) := by
  induction ps with
  | nil => simp [preparePhase]
  | cons p rest ih =>
    have hp := prepareOne_ok p (h p (List.mem_cons_self p rest))
    simp only [preparePhase, hp, List.map_cons]
    exact congrArg _ (ih (fun q hq => h q (List.mem_cons_of_mem p hq)))

theorem preparePhase_trace (ps : List PartState) :
    (preparePhase ps).2.1 = ps.map (fun p => RMCall.prepare p.pid) := by
  induction ps with
  | nil => simp [preparePhase]
  | cons p rest ih => simp [preparePhase, ih]

theorem preparePhase_pids (ps : List PartState) :
    (preparePhase ps).1.map PartState.pid = ps.map PartState.pid := by
  induction ps with
  | nil => simp [preparePhase]
  | cons p rest ih => simp [preparePhase, ih, prepareOne_pid]

theorem commitPhase_all_ok (ps : List PartState)
    (h : ∀ p ∈ ps, p.rm.commit = .ok true) :
    (commitPhase ps).1 = ps.map (fun p => { p with status := .COMMITTED }) ∧
    (commitPhase ps).2.2 = true := by
  induction ps with
  | nil => simp [commitPhase]
  | cons p rest ih =>
    have hp := commitOne_ok p (h p (List.mem_cons_self p rest))
    have ihr := ih (fun q hq => h q (List.mem_cons_of_mem p hq))
    simp only [commitPhase, hp, List.map_cons, Bool.and_eq_true]
    exact ⟨congrArg _ ihr.1, trivial, ihr.2⟩

theorem abortAll_trace (ps : List PartState) :
    (abortAll ps).2 = ps.map (fun p => RMCall.abort p.pid) := by
  induction ps with
  | nil => simp [abortAll]
  | cons p rest ih => simp [abortAll, ih]

end TwoPC

open TwoPC in
/-- Claim C1: for every run of `execute_two_phase_commit` over registered
participants: (1) if some participant's `prepare` returns `False` or raises,
the run returns `False`, no `commit` call appears in the trace, and an
`abort` call is issued to every participant; (2) if every participant's
`prepare` and `commit` return `True`, the run returns `True` and every
participant's final status is COMMITTED. -/
theorem twoPhaseCommit_spec (ps : List PartState) :
    ((∃ p ∈ ps, p.rm.prepare ≠ .ok true) →
      (executeTwoPhaseCommit ps).result = false ∧
      (∀ c ∈ (executeTwoPhaseCommit ps).trace, ∀ pid, c ≠ RMCall.commit pid) ∧
      (∀ p ∈ ps, RMCall.abort p.pid ∈ (executeTwoPhaseCommit ps).trace)) ∧
    ((∀ p ∈ ps, p.rm.prepare = .ok true ∧ p.rm.commit = .ok true) →
      (executeTwoPhaseCommit ps).result = true ∧
      (executeTwoPhaseCommit ps).txStatus = .COMMITTED ∧
      (∀ q ∈ (executeTwoPhaseCommit ps).parts, q.status = .COMMITTED)) := by
  constructor
  · rintro ⟨p, hp, hne⟩
    have hnotok : (preparePhase ps).2.2 ≠ true := by
      intro hok
      exact hne ((preparePhase_ok_iff ps).mp hok p hp)
    have hfalse : (preparePhase ps).2.2 = false :=
      Bool.eq_false_iff.mpr hnotok
    have hexec : executeTwoPhaseCommit ps
        = ⟨(abortAll (preparePhase ps).1).1, .ABORTED,
           (preparePhase ps).2.1 ++ (abortAll (preparePhase ps).1).2, false⟩ := by
      simp only [executeTwoPhaseCommit]
      rw [hfalse]
      simp
    rw [hexec]
    refine ⟨rfl, ?_, ?_⟩
    · intro c hc pid
      simp only [List.mem_append] at hc
      rcases hc with hc | hc
      · rw [preparePhase_trace] at hc
        simp only [List.mem_map] at hc
        obtain ⟨q, _, hq⟩ := hc
        rw [← hq]
        simp
      · rw [abortAll_trace] at hc
        simp only [List.mem_map] at hc
        obtain ⟨q, _, hq⟩ := hc
        rw [← hq]
        simp
    · intro q hq
      simp only [List.mem_append]
      right
      rw [abortAll_trace]
      have hpid : q.pid ∈ (preparePhase ps).1.map PartState.pid := by
        rw [preparePhase_pids]
        exact List.mem_map_of_mem PartState.pid hq
      simp only [List.mem_map] at hpid ⊢
      obtain ⟨r, hr, hrq⟩ := hpid
      exact ⟨r, hr, by rw [hrq]⟩
  · intro hall
    have hprep : ∀ p ∈ ps, p.rm.prepare = .ok true :=
      fun p hp => (hall p hp).1
    have hok : (preparePhase ps).2.2 = true :=
      (preparePhase_ok_iff ps).mpr hprep
    have hps1 : (preparePhase ps).1
        = ps.map (fun p => { p with status := ParticipantStatus.PREPARED }) :=
      preparePhase_all_ok ps hprep
    have hcommit : ∀ q ∈ (preparePhase ps).1, q.rm.commit = .ok true := by
      intro q hq
      rw [hps1] at hq
      simp only [List.mem_map] at hq
      obtain ⟨p, hp, hpq⟩ := hq
      rw [← hpq]
      exact (hall p hp).2
    have hc := commitPhase_all_ok (preparePhase ps).1 hcommit
    have hexec : executeTwoPhaseCommit ps
        = ⟨(commitPhase (preparePhase ps).1).1, .COMMITTED,
           (preparePhase ps).2.1 ++ (commitPhase (preparePhase ps).1).2.1, true⟩ := by
      simp only [executeTwoPhaseCommit]
      rw [hok, hc.2]
      simp
    rw [hexec]
    refine ⟨rfl, rfl, ?_⟩
    intro q hq
    simp only at hq
    rw [hc.1] at hq
    simp only [List.mem_map] at hq
    obtain ⟨p, _, hpq⟩ := hq
    rw [← hpq]

open TwoPC in
/-- Witness for `twoPhaseCommit_spec`: a failing run (second participant's
`prepare` returns `False`) returns `False` with `abort` issued to both
participants, and a fully successful run over two participants returns
`True` with both COMMITTED. -/
theorem twoPhaseCommit_spec_witness :
    (executeTwoPhaseCommit
      [⟨"db", ⟨.ok true, .ok true, .ok true⟩, .PREPARING⟩,
       ⟨"cache", ⟨.ok false, .ok true, .ok true⟩, .PREPARING⟩]).result = false ∧
    RMCall.abort "db" ∈ (executeTwoPhaseCommit
      [⟨"db", ⟨.ok true, .ok true, .ok true⟩, .PREPARING⟩,
       ⟨"cache", ⟨.ok false, .ok true, .ok true⟩, .PREPARING⟩]).trace ∧
    (executeTwoPhaseCommit
      [⟨"db", ⟨.ok true, .ok true, .ok true⟩, .PREPARING⟩,
       ⟨"cache", ⟨.ok true, .ok true, .ok true⟩, .PREPARING⟩]).result = true := by
  refine ⟨?_, ?_, ?_⟩
  · exact ((twoPhaseCommit_spec _).1
      ⟨⟨"cache", ⟨.ok false, .ok true, .ok true⟩, .PREPARING⟩,
        by decide, by decide⟩).1
  · exact ((twoPhaseCommit_spec _).1
      ⟨⟨"cache", ⟨.ok false, .ok true, .ok true⟩, .PREPARING⟩,
        by decide, by decide⟩).2.2
      ⟨"db", ⟨.ok true, .ok true, .ok true⟩, .PREPARING⟩ (by decide)
  · exact ((twoPhaseCommit_spec _).2 (by decide)).1

namespace ESaga

/-- A saga context: a Python dict mapping string keys to values (the claims
do not inspect the values, modelled as integers). -/
abbrev Ctx := List (String × Int)

/-- Python `dict.update`: keys already present keep their position and take
the updated value; new keys are appended in the update's order. -/
def dictUpdate (c u : Ctx) : Ctx :=
  c.map (fun kv =>
    match u.lookup kv.1 with
    | some v => (kv.1, v)
    | none => kv)
  ++ u.filter (fun kv => (c.lookup kv.1).isNone)

/-- The `SagaStep` dataclass of `event_streaming.py`: a name, a forward
action returning a partial context update (or raising), and an optional
compensating action (its in-place mutation of the context is modelled as
returning the new context; it may raise). -/
structure SagaStep where
  name : String
  execute : Ctx → Except String Ctx
  compensate : Option (Ctx → Except String Ctx)

/-- The `SagaStatus` enum of `event_streaming.py`. -/
inductive SagaStatus
  | STARTED
  | IN_PROGRESS
  | COMPLETED
  | FAILED
  | COMPENSATING
  | COMPENSATED
deriving DecidableEq, Repr

/-- The `SagaState` dataclass (the `created_at`/`updated_at` timestamps are
omitted). -/
structure SagaState where
  sagaId : String
  sagaType : String
  status : SagaStatus
  currentStep : Nat
  context : Ctx
  completedSteps : List String
  error : Option String
deriving DecidableEq, Repr

/-- The compensation sweep of `_compensate_saga`: iterate the given step
names (the caller passes `reversed(completed_steps)`), look each up in the
definition (`next(s for s in steps if s.name == step_name)`), and invoke its
compensating action when it has one; a raised compensation error is logged
and swallowed and the sweep continues.  Also returns the names whose
compensating action was invoked, in order. -/
def compSweep (steps : List SagaStep) : List String → Ctx → Ctx × List String
  | [], ctx => (ctx, [])
  | n :: rest, ctx =>
    match steps.find? (fun s => s.name == n) with
    | some st =>
      match st.compensate with
      | some f =>
        match f ctx with
        | .ok ctx' =>
            ((compSweep steps rest ctx').1, n :: (compSweep steps rest ctx').2)
        | .error _ =>
            ((compSweep steps rest ctx).1, n :: (compSweep steps rest ctx).2)
      | none => compSweep steps rest ctx
    | none => compSweep steps rest ctx

/-- Model of `SagaOrchestrator._compensate_saga`: set status COMPENSATING,
sweep the completed steps in reverse order, set status COMPENSATED, publish
`SAGA_COMPENSATED` (which has no local subscriber).  Returns the final state
and the compensation invocations. -/
def compensateSaga (steps : List SagaStep) (s : SagaState) : SagaState × List String :=
  let sw := compSweep steps s.completedSteps.reverse s.context
  ({ s with status := .COMPENSATED, context := sw.1 }, sw.2)

/-- Model of `SagaOrchestrator._execute_next_step`, inlining its re-entrant
control flow through the synchronous local event handlers registered in
`__init__`: a completed step publishes `SAGA_STEP_COMPLETED`, whose handler
immediately runs `_execute_next_step` again (the recursive call below); a
failed step publishes `SAGA_STEP_FAILED`, whose handler runs
`_compensate_saga`, after which the `except` block of `_execute_next_step`
itself calls `_compensate_saga` directly a second time.  `fuel` bounds the
recursion depth (one frame per remaining step plus one suffices).  Returns
the final saga state and the names of all compensations invoked, in
execution order. -/
def execNext (steps : List SagaStep) : Nat → SagaState → SagaState × List String
  | 0, s => (s, [])
  | fuel + 1, s =>
    if h : s.currentStep < steps.length then
      let step := steps[s.currentStep]
      let s1 := { s with status := .IN_PROGRESS }
      match step.execute s1.context with
      | .ok result =>
          let s2 := { s1 with
            context := dictUpdate s1.context result,
            completedSteps := s1.completedSteps ++ [step.name],
            currentStep := s1.currentStep + 1 }
          execNext steps fuel s2
      | .error e =>
          let s2 := { s1 with status := .FAILED, error := some e }
          let c1 := compensateSaga steps s2
          let c2 := compensateSaga steps c1.1
          (c2.1, c1.2 ++ c2.2)
    else
      ({ s with status := .COMPLETED }, [])

/-- The registries of `SagaOrchestrator`: the saga-instance dict and the
saga-definition dict. -/
structure Orch where
  sagas : List (String × SagaState)
  defs : List (String × List SagaStep)

/-- Model of `SagaOrchestrator.register_saga`: a plain dict assignment
`self.saga_definitions[saga_type] = steps`, with no duplicate check. -/
def registerSaga (o : Orch) (ty : String) (steps : List SagaStep) : Orch :=
  { o with defs := assocSet o.defs ty steps }

/-- Model of `SagaOrchestrator.start_saga`: raises
`ValueError("Unknown saga type: ...")` when the type is unregistered;
otherwise creates the STARTED instance, stores it, and drives the saga via
`_execute_next_step` (which, through the synchronous local event handlers,
runs it to a terminal status).  Returns the updated orchestrator, the final
saga state, and the compensation invocations. -/
def startSaga (o : Orch) (sid ty : String) (ctx : Ctx) :
    Except String (Orch × SagaState × List String) :=
  match o.defs.lookup ty with
  | none => .error ("Unknown saga type: " ++ ty)
  | some steps =>
      let s0 : SagaState := ⟨sid, ty, .STARTED, 0, ctx, [], none⟩
      let r := execNext steps (steps.length + 1) s0
      .ok ({ o with sagas := assocSet o.sagas sid r.1 }, r.1, r.2)

/-- Every step of the definition succeeds when executed sequentially from
the given context, threading the merged context forward. -/
def allSucceed : List SagaStep → Ctx → Bool
  | [], _ => true
  | st :: rest, ctx =>
    match st.execute ctx with
    | .ok r => allSucceed rest (dictUpdate ctx r)
    | .error _ => false

/-- The final saga status of a `start_saga` result. -/
def startStatus (r : Except String (Orch × SagaState × List String)) :
    Option SagaStatus :=
  match r with
  | .ok (_, s, _) => some s.status
  | .error _ => none

/-- The completed-step names of a `start_saga` result. -/
def startCompleted (r : Except String (Orch × SagaState × List String)) :
    Option (List String) :=
  match r with
  | .ok (_, s, _) => some s.completedSteps
  | .error _ => none

/-- The compensation invocations of a `start_saga` result. -/
def startCompLog (r : Except String (Orch × SagaState × List String)) :
    Option (List String) :=
  match r with
  | .ok (_, _, l) => some l
  | .error _ => none

theorem execNext_all_ok (steps : List SagaStep) :
    ∀ (fuel : Nat) (s : SagaState),
    steps.length - s.currentStep < fuel →
    allSucceed (steps.drop s.currentStep) s.context = true →
    (execNext steps fuel s).1.status = .COMPLETED ∧
    (execNext steps fuel s).1.completedSteps
      = s.completedSteps ++ (steps.drop s.currentStep).map SagaStep.name ∧
    (execNext steps fuel s).2 = [] := by
  intro fuel
  induction fuel with
  | zero =>
    intro s hf _
    omega
  | succ fuel ih =>
    intro s hf hall
    by_cases h : s.currentStep < steps.length
    · have hdrop : steps.drop s.currentStep
          = steps[s.currentStep] :: steps.drop (s.currentStep + 1) :=
        List.drop_eq_getElem_cons h
      rw [hdrop] at hall
      obtain ⟨result, hex⟩ :
          ∃ r, steps[s.currentStep].execute s.context = .ok r := by
        cases hex2 : steps[s.currentStep].execute s.context with
        | ok r => exact ⟨r, rfl⟩
        | error e =>
          rw [allSucceed, hex2] at hall
          cases hall
      rw [allSucceed, hex] at hall
      have hrec := ih
        { s with
          status := .IN_PROGRESS,
          context := dictUpdate s.context result,
          completedSteps := s.completedSteps ++ [steps[s.currentStep].name],
          currentStep := s.currentStep + 1 }
        (by show steps.length - (s.currentStep + 1) < fuel; omega)
        (by simpa using hall)
      have hstep : execNext steps (fuel + 1) s
          = execNext steps fuel
            { s with
              status := .IN_PROGRESS,
              context := dictUpdate s.context result,
              completedSteps := s.completedSteps ++ [steps[s.currentStep].name],
              currentStep := s.currentStep + 1 } := by
        simp only [execNext, dif_pos h]
        rw [hex]
      rw [hstep, hdrop]
      refine ⟨hrec.1, ?_, hrec.2.2⟩
      rw [hrec.2.1]
      show (s.completedSteps ++ [steps[s.currentStep].name])
          ++ (List.drop (s.currentStep + 1) steps).map SagaStep.name
          = s.completedSteps
          ++ (steps[s.currentStep]
              :: List.drop (s.currentStep + 1) steps).map SagaStep.name
      rw [List.map_cons, List.append_assoc, List.singleton_append]
    · have hdrop : steps.drop s.currentStep = [] :=
        List.drop_eq_nil_of_le (by omega)
      simp only [execNext, dif_neg h, hdrop]
      simp

end ESaga

open ESaga in
/-- Claim C7: for any registered saga whose steps all succeed on the given
initial context, `start_saga` yields a saga whose final status is COMPLETED
and whose completed-step-names equal the full step-name list of the
definition in original order (and no compensation is invoked). -/
theorem saga_all_steps_succeed (o : Orch) (sid ty : String) (ctx : Ctx)
    (steps : List SagaStep) (hreg : o.defs.lookup ty = some steps)
    (hall : allSucceed steps ctx = true) :
    ∃ o' s, startSaga o sid ty ctx = .ok (o', s, []) ∧
      s.status = .COMPLETED ∧
      s.completedSteps = steps.map SagaStep.name := by
  have hm := execNext_all_ok steps (steps.length + 1)
    ⟨sid, ty, .STARTED, 0, ctx, [], none⟩
    (by show steps.length - 0 < steps.length + 1; omega)
    (by simpa using hall)
  simp only [startSaga, hreg]
  refine ⟨Orch.mk (assocSet o.sagas sid (execNext steps (steps.length + 1) ⟨sid, ty, .STARTED, 0, ctx, [], none⟩).1) o.defs, (execNext steps (steps.length + 1) ⟨sid, ty, .STARTED, 0, ctx, [], none⟩).1, ?_, hm.1, ?_⟩
  · rw [hm.2.2]
  · simpa using hm.2.1

open ESaga in
/-- Step definitions used by the concrete saga scenarios: `A` and `C`
succeed, `B` raises; each has a compensating action. -/
def stepA : SagaStep := ⟨"A", fun _ => .ok [("a", 1)], some (fun c => .ok c)⟩

open ESaga in
/-- Step `B`: its forward action always raises. -/
def stepB : SagaStep := ⟨"B", fun _ => .error "boom", some (fun c => .ok c)⟩

open ESaga in
/-- Step `C`: succeeds with no context update. -/
def stepC : SagaStep := ⟨"C", fun _ => .ok [], some (fun c => .ok c)⟩

open ESaga in
/-- An orchestrator with the saga type "order" registered with steps
[A, B, C]. -/
def oABC : Orch := ⟨[], [("order", [stepA, stepB, stepC])]⟩

open ESaga in
/-- Witness for `saga_all_steps_succeed`: the registered type "ok2" with two
always-succeeding steps completes with completed-steps ["A", "C"]. -/
theorem saga_all_steps_succeed_witness :
    ∃ o' s, startSaga ⟨[], [("ok2", [stepA, stepC])]⟩ "s1" "ok2" []
        = .ok (o', s, []) ∧
      s.status = .COMPLETED ∧
      s.completedSteps = [stepA, stepC].map SagaStep.name :=
  saga_all_steps_succeed ⟨[], [("ok2", [stepA, stepC])]⟩ "s1" "ok2" []
    [stepA, stepC] rfl rfl

open ESaga in
/-- Claim C3 (code bug): starting the saga "order" with steps [A, B, C]
where B's forward action raises ends with status COMPENSATED and completed
steps ["A"], but the compensation for A executes TWICE (invocation log
["A", "A"]): the `except` block of `_execute_next_step` first publishes
`SAGA_STEP_FAILED` — whose local handler `_handle_step_failed` runs
`_compensate_saga` — and then calls `_compensate_saga` directly a second
time, whereas the claim (and §4.2 of the spec) describe a single
compensation sweep, i.e. compensation executed exactly once per completed
step. -/
theorem saga_compensation_runs_twice :
    startStatus (startSaga oABC "s1" "order" []) = some .COMPENSATED ∧
    startCompleted (startSaga oABC "s1" "order" []) = some ["A"] ∧
    startCompLog (startSaga oABC "s1" "order" []) = some ["A", "A"] :=
  ⟨rfl, rfl, rfl⟩

open ESaga in
/-- Claim C4 counterexample: registering type "T" twice does not fail and
does not leave the first registration in place — the second step list
replaces the first (`saga_definitions[saga_type] = steps` is a plain dict
assignment with no duplicate check), refuting "fails with
DuplicateSagaTypeError (leaving the first registration in place)". -/
theorem saga_duplicate_registration_counterexample :
    (((registerSaga ⟨[], []⟩ "T" [stepA]).defs.lookup "T").map
      (List.map SagaStep.name) = some ["A"]) ∧
    (((registerSaga (registerSaga ⟨[], []⟩ "T" [stepA]) "T" [stepC]).defs.lookup
      "T").map (List.map SagaStep.name) = some ["C"]) :=
  ⟨rfl, rfl⟩

open ESaga in
/-- Claim C4 (amended): registering a saga type that is already registered
does not fail — the new step list silently replaces the previous
registration; starting a saga with an unregistered type fails with
`ValueError("Unknown saga type: ...")` and no saga instance is created. -/
theorem saga_registration_spec (o : Orch) (ty : String) (steps : List SagaStep) :
    ((registerSaga o ty steps).defs.lookup ty = some steps) ∧
    (∀ sid ctx, o.defs.lookup ty = none →
      startSaga o sid ty ctx = .error ("Unknown saga type: " ++ ty)) := by
  constructor
  · exact assocSet_lookup_self o.defs ty steps
  · intro sid ctx hnone
    simp only [startSaga, hnone]

open ESaga in
/-- Witness for `saga_registration_spec`: re-registering "T" overwrites, and
starting the unregistered type "U" raises the unknown-type `ValueError`. -/
theorem saga_registration_spec_witness :
    ((registerSaga ⟨[], []⟩ "T" [stepA]).defs.lookup "T" = some [stepA]) ∧
    startSaga ⟨[], []⟩ "s1" "U" [] = .error ("Unknown saga type: " ++ "U") :=
  ⟨(saga_registration_spec ⟨[], []⟩ "T" [stepA]).1,
   (saga_registration_spec ⟨[], []⟩ "U" []).2 "s1" [] rfl⟩

namespace Inbox

/-- One stored inbox record of `inbox_pattern.py` (`received_at` omitted);
the event payload is opaque to the pattern and modelled as a string. -/
structure InboxEvent where
  messageId : String
  eventData : String
  processed : Bool
deriving DecidableEq, Repr

/-- The mutable state of an `InboxPattern` instance: the set of processed
message ids and the inbox-event dict keyed by message id. -/
structure InboxState where
  processedMessages : List String
  inboxEvents : List (String × InboxEvent)
deriving DecidableEq, Repr

/-- Result of one `handle_message` call: the returned boolean, the state
afterwards, and whether `process_event` (the handler) was invoked. -/
structure HandleR where
  result : Bool
  state : InboxState
  invoked : Bool
deriving DecidableEq, Repr

/-- Model of `InboxPattern.handle_message` with the (overridable)
`process_event` handler passed as `processEvent`: an already-seen id returns
`True` immediately; otherwise the record is stored unprocessed, the handler
runs, and only on success is the record marked processed and the id added to
`processed_messages`; a raised handler error yields `False` with the id not
recorded. -/
def handleMessage (processEvent : String → Except String Unit)
    (st : InboxState) (mid dat : String) : HandleR :=
  if mid ∈ st.processedMessages then
    ⟨true, st, false⟩
  else
    let ev : InboxEvent := ⟨mid, dat, false⟩
    let st1 : InboxState := { st with inboxEvents := assocSet st.inboxEvents mid ev }
    match processEvent dat with
    | .ok _ =>
        ⟨true,
         { st1 with
           inboxEvents := assocSet st1.inboxEvents mid { ev with processed := true },
           processedMessages := st1.processedMessages ++ [mid] },
         true⟩
    | .error _ => ⟨false, st1, true⟩

end Inbox

open Inbox in
/-- Claim C8: the inbox check is idempotent in the message id — for an id
already recorded as processed, `handle_message` returns `True` without
invoking the handler and without changing any state; for an unseen id the
handler is invoked and, when it succeeds, the call returns `True` and the id
is recorded, so handling the same id again returns `True` without a second
handler invocation. -/
theorem inbox_idempotent (processEvent : String → Except String Unit)
    (st : InboxState) (mid dat : String) :
    (mid ∈ st.processedMessages →
      handleMessage processEvent st mid dat = ⟨true, st, false⟩) ∧
    (mid ∉ st.processedMessages →
      (handleMessage processEvent st mid dat).invoked = true ∧
      (∀ u, processEvent dat = .ok u →
        (handleMessage processEvent st mid dat).result = true ∧
        mid ∈ (handleMessage processEvent st mid dat).state.processedMessages ∧
        ∀ pe2 dat2,
          handleMessage pe2 (handleMessage processEvent st mid dat).state mid dat2
            = ⟨true, (handleMessage processEvent st mid dat).state, false⟩)) := by
  constructor
  · intro hmem
    simp only [handleMessage, if_pos hmem]
  · intro hmem
    simp only [handleMessage, if_neg hmem]
    cases hpe : processEvent dat with
    | ok u =>
      refine ⟨rfl, ?_⟩
      intro u' hu'
      have hmem2 : mid ∈ st.processedMessages ++ [mid] := by simp
      exact ⟨rfl, hmem2, fun pe2 dat2 => by
        simp only [handleMessage, if_pos hmem2]⟩
    | error e =>
      refine ⟨rfl, ?_⟩
      intro u' hu'
      cases hu'

open Inbox in
/-- Witness for `inbox_idempotent`: a seen id "m" is not reprocessed, and an
unseen id "n" is processed and then recorded. -/
theorem inbox_idempotent_witness :
    (handleMessage (fun _ => .ok ()) ⟨["m"], []⟩ "m" "d"
      = ⟨true, ⟨["m"], []⟩, false⟩) ∧
    (handleMessage (fun _ => .ok ()) ⟨["m"], []⟩ "n" "d").invoked = true ∧
    "n" ∈ (handleMessage (fun _ => .ok ()) ⟨["m"], []⟩ "n" "d").state.processedMessages := by
  have h1 := (inbox_idempotent (fun _ => .ok ()) ⟨["m"], []⟩ "m" "d").1 (by decide)
  have h2 := (inbox_idempotent (fun _ => .ok ()) ⟨["m"], []⟩ "n" "d").2 (by decide)
  exact ⟨h1, h2.1, (h2.2 () rfl).2.1⟩

open Inbox in
/-- Claim C10: if the handler raises while processing an unseen message id,
`handle_message` returns `False` and the id is NOT added to the processed
set (only the unprocessed inbox record is stored), so a later redelivery of
the same id invokes the handler again. -/
theorem inbox_failure_not_recorded (processEvent : String → Except String Unit)
    (st : InboxState) (mid dat e : String)
    (hmem : mid ∉ st.processedMessages)
    (hpe : processEvent dat = .error e) :
    (handleMessage processEvent st mid dat).result = false ∧
    (handleMessage processEvent st mid dat).state.processedMessages
      = st.processedMessages ∧
    (handleMessage processEvent st mid dat).invoked = true ∧
    ∀ pe2 dat2,
      (handleMessage pe2 (handleMessage processEvent st mid dat).state mid
        dat2).invoked = true := by
  have hr : handleMessage processEvent st mid dat
      = ⟨false,
         { st with inboxEvents := assocSet st.inboxEvents mid ⟨mid, dat, false⟩ },
         true⟩ := by
    simp only [handleMessage, if_neg hmem, hpe]
  rw [hr]
  refine ⟨rfl, rfl, rfl, ?_⟩
  intro pe2 dat2
  simp only [handleMessage, if_neg hmem]
  cases pe2 dat2 <;> rfl

open Inbox in
/-- Witness for `inbox_failure_not_recorded`: a handler that raises on
payload "d" leaves id "n" unrecorded and a redelivery invokes the handler
again. -/
theorem inbox_failure_not_recorded_witness :
    (handleMessage (fun _ => .error "boom") ⟨["m"], []⟩ "n" "d").result = false ∧
    (handleMessage (fun _ => .error "boom") ⟨["m"], []⟩ "n" "d").state.processedMessages
      = ["m"] ∧
    (handleMessage (fun _ => .error "boom")
      (handleMessage (fun _ => .error "boom") ⟨["m"], []⟩ "n" "d").state
      "n" "d").invoked = true := by
  have h := inbox_failure_not_recorded (fun _ => .error "boom") ⟨["m"], []⟩
    "n" "d" "boom" (by decide) rfl
  exact ⟨h.1, h.2.1, h.2.2.2 (fun _ => .error "boom") "d"⟩

namespace Outbox

/-- The `OutboxEvent` dataclass of `transaction/outbox.py`
(`created_at`/`processed_at` omitted); `eventData` holds the
`json.dumps`-serialized payload. -/
structure OutboxEvent where
  id : String
  aggregateId : String
  eventType : String
  eventData : String
  processed : Bool
deriving DecidableEq, Repr

/-- The `OutboxRepository` store: a dict of events keyed by id. -/
structure OutboxRepo where
  events : List (String × OutboxEvent)
deriving DecidableEq, Repr

/-- Model of `OutboxRepository.save`. -/
def save (r : OutboxRepo) (e : OutboxEvent) : OutboxRepo :=
  ⟨assocSet r.events e.id e⟩

/-- Model of `OutboxRepository.find_unprocessed`: the dict's values in
insertion order, keeping those not yet processed. -/
def findUnprocessed (r : OutboxRepo) : List OutboxEvent :=
  (r.events.map Prod.snd).filter (fun e => !e.processed)

/-- Model of `OutboxRepository.mark_processed`. -/
def markProcessed (r : OutboxRepo) (eid : String) : OutboxRepo :=
  ⟨r.events.map (fun kv =>
    if kv.1 = eid then (kv.1, { kv.2 with processed := true }) else kv)⟩

/-- The `EventPublisher`: subscriber handlers keyed by event type; a handler
may raise. -/
structure Publisher where
  subscribers : List (String × List (String → Except String Unit))

/-- Model of `EventPublisher.publish`: runs every subscriber registered for
the type, each call wrapped in its own `try`/`except` — a raised handler
error is logged and swallowed, so `publish` itself never raises and reports
no failure to its caller.  The returned list records each handler's outcome
(`true` = returned, `false` = raised) purely as an observation; the code
discards it. -/
def publish (p : Publisher) (ty dat : String) : List Bool :=
  match p.subscribers.lookup ty with
  | none => []
  | some hs => hs.map (fun h =>
      match h dat with
      | .ok _ => true
      | .error _ => false)

/-- Model of `OutboxService.save_event`: builds the unprocessed
`OutboxEvent` (the generated uuid is passed in as `eid`) and saves it. -/
def saveEvent (r : OutboxRepo) (eid aggId ty dat : String) : OutboxRepo :=
  save r ⟨eid, aggId, ty, dat, false⟩

/-- One pass of the `OutboxService._process_events` loop body: read the
unprocessed events and, for each, decode its payload (`json.loads`),
publish it, and mark it processed; the surrounding `try`/`except` skips
`mark_processed` only when an exception escapes — and since `publish` never
raises, only a payload failing to decode leaves its record unprocessed for
the next scan.  Returns the repository after the scan and, for observation,
each delivered event id with its per-handler publish outcomes. -/
def processScan (jsonLoads : String → Except String String) (pub : Publisher)
    (r : OutboxRepo) : OutboxRepo × List (String × List Bool) :=
  (findUnprocessed r).foldl
    (fun acc e =>
      match jsonLoads e.eventData with
      | .ok dat =>
          (markProcessed acc.1 e.id,
           acc.2 ++ [(e.id, publish pub e.eventType dat)])
      | .error _ => acc)
    (r, [])

end Outbox

open Outbox in
/-- Claim C5 (code bug): a record saved by `save_event` does appear in
`find_unprocessed`, as the claim states — but a failed publish does NOT
leave it unprocessed: `EventPublisher.publish` catches and swallows every
handler exception, so `_process_events` marks the record processed even when
every delivery attempt failed, and nothing remains for the next scan to
retry.  Concretely: the sole subscriber for type "t" raises, the scan's
publish outcome for record "e1" is `[false]`, yet "e1" ends marked processed
and `find_unprocessed` is empty afterwards. -/
theorem outbox_failed_publish_marked_processed :
    (findUnprocessed (saveEvent ⟨[]⟩ "e1" "agg" "t" "d")
      = [⟨"e1", "agg", "t", "d", false⟩]) ∧
    ((processScan (fun s => .ok s) ⟨[("t", [fun _ => .error "down"])]⟩
      (saveEvent ⟨[]⟩ "e1" "agg" "t" "d")).2 = [("e1", [false])]) ∧
    (((processScan (fun s => .ok s) ⟨[("t", [fun _ => .error "down"])]⟩
      (saveEvent ⟨[]⟩ "e1" "agg" "t" "d")).1.events.lookup "e1").map
        OutboxEvent.processed = some true) ∧
    (findUnprocessed (processScan (fun s => .ok s)
      ⟨[("t", [fun _ => .error "down"])]⟩
      (saveEvent ⟨[]⟩ "e1" "agg" "t" "d")).1 = []) :=
  ⟨rfl, rfl, rfl, rfl⟩
